import Mathlib

/-!
Verification of the lisp.rs tree-walking evaluator and REPL against its
specification.  The evaluator (`src/eval/mod.rs`) and the two REPL binaries
(`src/bin/step1.rs`, `src/bin/step2.rs`) are embedded shallowly below; the
AST, code map, interner and environment stack live in modules outside the
provided sources and are modelled from the specification where noted.
-/

set_option maxHeartbeats 1600000

namespace LispRs

/-- Modelled from the spec: a `Name` is an opaque compact handle issued by the
Interner; equality is bitwise.  We model handles as natural numbers. -/
abbrev Name := Nat

/-- Modelled from the spec: the Interner, viewed through its `resolve`
operation, maps every issued handle back to its text (total over issued
handles).  Per the spec the handle of a keyword excludes the leading colon. -/
abbrev Interner := Name → String

/-- Modelled from the spec: a half-open byte range `[lo, hi)` into a Source. -/
structure Span where
  lo : Nat
  hi : Nat
  deriving DecidableEq, Repr

/-- Modelled from the spec: a Source owns one line of user input; byte-indexed
slicing by span is supported.  Modelled as the line's text. -/
abbrev Source := String

/-- Byte-indexed slicing of a Source by a Span (`&source[span]` in the code);
inputs are ASCII in every scenario we evaluate, so characters model bytes. -/
def sliceSpan (s : Source) (sp : Span) : String :=
  String.mk ((s.toList.drop sp.lo).take (sp.hi - sp.lo))

/-- Reserved operators (`syntax::ast::Operator`, modelled from the spec). -/
inductive Operator where
  | Def
  | If
  | Let
  deriving DecidableEq, Repr

/-- Modelled from the spec: `syntax::ast::Expr` is a `Spanned<Expr_>`; here the
span is stored in each node.  `String` carries no payload: its contents are
read from the owning Source through the node's span. -/
inductive Expr where
  | Bool (sp : Span) (b : Bool)
  | Integer (sp : Span) (i : Int)
  | Keyword (sp : Span) (n : Name)
  | Nil (sp : Span)
  | String (sp : Span)
  | Symbol (sp : Span) (n : Name)
  | Operator (sp : Span) (op : Operator)
  | List (sp : Span) (es : List Expr)
  | Vector (sp : Span) (es : List Expr)
  deriving Repr

/-- The span of an expression node. -/
def Expr.span : Expr → Span
  | .Bool sp _ => sp
  | .Integer sp _ => sp
  | .Keyword sp _ => sp
  | .Nil sp => sp
  | .String sp => sp
  | .Symbol sp _ => sp
  | .Operator sp _ => sp
  | .List sp _ => sp
  | .Vector sp _ => sp

/-- Evaluation error kinds (`eval::Error_`). -/
inductive Error_ where
  | EmptyList
  | ExpectedFunction
  | ExpectedSymbol
  | UndefinedSymbol
  | UnsupportedOperation
  deriving DecidableEq, Repr

/-- Spanned evaluation error (`eval::Error = Spanned<Error_>`). -/
structure Error where
  span : Span
  node : Error_
  deriving DecidableEq, Repr

/-- A function code: the identity of a host-provided callable.  The Rust
`Function` wraps a reference-counted closure; the repo has no lambdas, so
every Function value is a shared host callable, identified here by a code
that a fixed table (`Builtins`) interprets.  Cloning a `Function` clones the
`Rc`, i.e. the code. -/
abbrev FnCode := Nat

/-- Runtime values (`eval::Value`).  `Function` holds the code of a shared
host callable. -/
inductive Value where
  | Bool (b : Bool)
  | Function (code : FnCode)
  | Integer (i : Int)
  | Keyword (n : Name)
  | Nil
  | String (s : String)
  | Vector (vs : List Value)
  deriving Repr

/-- The table of host callables: interprets a function code as the underlying
`Fn(&[Value]) -> Option<Value>`. -/
abbrev Builtins := FnCode → List Value → Option Value

/-- Modelled from the spec: a single environment frame maps Names to Values
with last-write-wins semantics.  Modelled as an association list where the
most recent insert sits in front. -/
abbrev Env := List (Name × Value)

/-- Modelled from the spec: fresh empty frame (`Env::new`). -/
def Env.new : Env := []

/-- Modelled from the spec: the environment stack, top frame first; the
bottom (last) frame is the global one. -/
abbrev Stack := List Env

/-- Modelled from the spec: `insert` writes to the topmost frame
(last-write-wins within the frame). -/
def Stack.insert (s : Stack) (n : Name) (v : Value) : Stack :=
  match s with
  | [] => []
  | f :: rest => ((n, v) :: f) :: rest

/-- Modelled from the spec: `get` walks frames from top to bottom and returns
the first hit. -/
def Stack.get (s : Stack) (n : Name) : Option Value :=
  match s with
  | [] => none
  | f :: rest =>
    match f.lookup n with
    | some v => some v
    | none => Stack.get rest n

/-- Result of one evaluation step: `none` models a panic
(the `unreachable!()` arms), `some` carries the `Result<Value, Error>`
together with the environment stack after the call. -/
abbrev EvalOut := Option (Except Error Value × Stack)

mutual

/-- `eval::expr` from `src/eval/mod.rs`, with the mutable `Stack` threaded
explicitly and panics modelled as `none`. -/
def expr (e : Expr) (source : Source) (B : Builtins) (env : Stack) : EvalOut :=
  match e with
  | .Bool _ b => some (.ok (.Bool b), env)
  | .Integer _ i => some (.ok (.Integer i), env)
  | .Keyword _ n => some (.ok (.Keyword n), env)
  | .Operator _ _ =>
    -- `unreachable!()` in the source: "a syntax error that gets caught earlier on"
    none
  | .List sp es =>
    match es with
    | [] => some (.error ⟨sp, .EmptyList⟩, env)
    | head :: tail =>
      match head with
      | .Operator _ op =>
        match op with
        | .Def =>
          match tail with
          | [symbol, e'] =>
            match symbol with
            | .Symbol _ name =>
              match expr e' source B env with
              | none => none
              | some (.error er, env') => some (.error er, env')
              | some (.ok value, env') =>
                some (.ok value, Stack.insert env' name value)
            | _ => some (.error ⟨symbol.span, .ExpectedSymbol⟩, env)
          | _ => some (.error ⟨sp, .UnsupportedOperation⟩, env)
        | .If =>
          match tail with
          | [cond, thn, els] =>
            match expr cond source B env with
            | none => none
            | some (.error er, env') => some (.error er, env')
            | some (.ok v, env') =>
              match v with
              | .Bool false => expr els source B env'
              | .Nil => expr els source B env'
              | _ => expr thn source B env'
          | _ => some (.error ⟨sp, .UnsupportedOperation⟩, env)
        | .Let =>
          match tail with
          | [lst, ret] =>
            match lst with
            | .List _ bindings =>
              if bindings.length % 2 = 0 then
                match letLoop bindings source B (Env.new :: env) with
                | none => none
                | some (.error er, env') => some (.error er, env'.tail)
                | some (.ok _, env') =>
                  match expr ret source B env' with
                  | none => none
                  | some (r, env'') => some (r, env''.tail)
              else
                some (.error ⟨sp, .UnsupportedOperation⟩, env)
            | .Vector _ bindings =>
              if bindings.length % 2 = 0 then
                match letLoop bindings source B (Env.new :: env) with
                | none => none
                | some (.error er, env') => some (.error er, env'.tail)
                | some (.ok _, env') =>
                  match expr ret source B env' with
                  | none => none
                  | some (r, env'') => some (r, env''.tail)
              else
                some (.error ⟨sp, .UnsupportedOperation⟩, env)
            | _ => some (.error ⟨sp, .UnsupportedOperation⟩, env)
          | _ => some (.error ⟨sp, .UnsupportedOperation⟩, env)
      | .Symbol hsp sym =>
        match Stack.get env sym with
        | none => some (.error ⟨hsp, .UndefinedSymbol⟩, env)
        | some value =>
          match value with
          | .Function code =>
            match exprs tail source B env with
            | none => none
            | some (.error er, env') => some (.error er, env')
            | some (.ok args, env') =>
              match B code args with
              | some v => some (.ok v, env')
              | none => some (.error ⟨sp, .UnsupportedOperation⟩, env')
          | _ => some (.error ⟨hsp, .ExpectedFunction⟩, env)
      | _ => some (.error ⟨head.span, .ExpectedSymbol⟩, env)
  | .Nil _ => some (.ok .Nil, env)
  | .String sp => some (.ok (.String (sliceSpan source sp)), env)
  | .Symbol sp sym =>
    match Stack.get env sym with
    | none => some (.error ⟨sp, .UndefinedSymbol⟩, env)
    | some value => some (.ok value, env)
  | .Vector _ es =>
    match exprs es source B env with
    | none => none
    | some (.error er, env') => some (.error er, env')
    | some (.ok elems, env') => some (.ok (.Vector elems), env')

/-- The left-to-right evaluation loop over a sequence of expressions, as used
for vector elements and function-call arguments: first error aborts. -/
def exprs (es : List Expr) (source : Source) (B : Builtins) (env : Stack) :
    Option (Except Error (List Value) × Stack) :=
  match es with
  | [] => some (.ok [], env)
  | e :: rest =>
    match expr e source B env with
    | none => none
    | some (.error er, env') => some (.error er, env')
    | some (.ok v, env') =>
      match exprs rest source B env' with
      | none => none
      | some (.error er, env'') => some (.error er, env'')
      | some (.ok vs, env'') => some (.ok (v :: vs), env'')

/-- The `bindings.chunks(2)` loop of the `let` special form: take the
bindings two at a time, evaluate the right-hand side in the current stack,
insert into the topmost (freshly pushed) frame.  An odd chunk is the
source's `unreachable!()` (`none`); the caller has checked evenness. -/
def letLoop (bs : List Expr) (source : Source) (B : Builtins) (env : Stack) :
    Option (Except Error Unit × Stack) :=
  match bs with
  | [] => some (.ok (), env)
  | [_] => none
  | symbol :: e :: rest =>
    match symbol with
    | .Symbol _ name =>
      match expr e source B env with
      | none => none
      | some (.error er, env') => some (.error er, env')
      | some (.ok v, env') => letLoop rest source B (Stack.insert env' name v)
    | _ => some (.error ⟨symbol.span, .ExpectedSymbol⟩, env)

end

mutual

/-- `Value::display_` from `src/eval/mod.rs`: appends this value's rendering;
the mutable string accumulation is modelled by returning the appended text. -/
def Value.display_ (v : Value) (interner : Interner) : String :=
  match v with
  | .Bool b => toString b
  | .Function code => "<function at " ++ toString code ++ ">"
  | .Integer i => toString i
  | .Keyword n => interner n
  | .Nil => "nil"
  | .String s => s
  | .Vector elems => "[" ++ displayElems elems interner true ++ "]"

/-- The element loop of `Value::display_` for vectors, with its `is_first`
flag: elements joined by single spaces. -/
def displayElems (elems : List Value) (interner : Interner) (isFirst : Bool) :
    String :=
  match elems with
  | [] => ""
  | e :: rest =>
    (if isFirst then "" else " ") ++ Value.display_ e interner ++
      displayElems rest interner false

end

/-- `Value::display` from `src/eval/mod.rs`: formats this value. -/
def Value.display (v : Value) (interner : Interner) :=
  Value.display_ v interner

/-- The stream a REPL binary writes a given piece of text to. -/
inductive OutStream where
  | Stdout
  | Stderr
  deriving DecidableEq, Repr

/-- A best-effort fatal write: the target stream and the text written. -/
structure FatalReport where
  stream : OutStream
  message : String
  deriving DecidableEq, Repr

/-- `main` of `src/bin/step1.rs` as a function of `rep`'s outcome: on `Ok`
the process exits 0 with no fatal write; on an I/O error it sets the exit
status to 1 and best-effort writes the error's Display text
(`stdout.write_fmt(format_args!("{}", e))`) to the locked standard output. -/
def step1Main (r : Except String Unit) : Nat × Option FatalReport :=
  match r with
  | .ok _ => (0, none)
  | .error e => (1, some ⟨.Stdout, e⟩)

/-- `main` of `src/bin/step2.rs` as a function of `rep`'s outcome: on an I/O
error it sets the exit status to 1 and best-effort writes the error's Display
text plus a newline (`writeln!(&mut stdout, "{}", e)`) to the locked
standard output. -/
def step2Main (r : Except String Unit) : Nat × Option FatalReport :=
  match r with
  | .ok _ => (0, none)
  | .error e => (1, some ⟨.Stdout, e ++ ("\n")⟩)

/-- Splits a `let` binding list into its adjacent pairs; defined exactly on
even-length lists. -/
def pairsOf : List Expr → Option (List (Expr × Expr))
  | [] => some []
  | [_] => none
  | a :: b :: rest => (pairsOf rest).map (fun ps => (a, b) :: ps)

/-- Transcribes the spec's words for the `let` special form (§4.G): for each
adjacent pair, the symbol must be a Symbol, the expression is evaluated in
the current extended stack (the fresh frame holding all earlier bindings of
this `let` on top), and the pair is inserted into that topmost frame; the
body is evaluated in the extended stack; the frame is popped on every exit
path, so every exit returns the saved outer stack. -/
def letSpecGo (pairs : List (Expr × Expr)) (body : Expr) (source : Source)
    (B : Builtins) (ext saved : Stack) : EvalOut :=
  match pairs with
  | [] =>
    match expr body source B ext with
    | none => none
    | some (r, _) => some (r, saved)
  | (symE, e) :: rest =>
    match symE with
    | .Symbol _ n =>
      match expr e source B ext with
      | none => none
      | some (.error er, _) => some (.error er, saved)
      | some (.ok v, ext2) =>
        letSpecGo rest body source B (Stack.insert ext2 n v) saved
    | _ => some (.error ⟨symE.span, .ExpectedSymbol⟩, saved)

/-- The spec-side meaning of a well-shaped `let`: push a fresh frame, run the
binding pairs and the body per `letSpecGo`, and return the original stack on
every exit path. -/
def letSpec (pairs : List (Expr × Expr)) (body : Expr) (source : Source)
    (B : Builtins) (s : Stack) : EvalOut :=
  letSpecGo pairs body source B (Env.new :: s) s

/-- An empty builtin table: every function code maps to a callable that
returns "no value". -/
def noBuiltins : Builtins := fun _ _ => none

/-- Modelled from the spec: the parser (outside the provided sources) hands
eval a `String` expression whose span lies strictly between the quotes: for
a literal whose opening and closing quote characters sit at byte positions
`qlo` and `qhi`, the expression's span is `[qlo+1, qhi)` (§3: the exact
contents of a String expression are the slice between the quotes of the
owning Source). -/
def stringExprOfQuotes (qlo qhi : Nat) : Expr := .String ⟨qlo + 1, qhi⟩

/-- Scenario 7 input line. -/
def exampleVecSource : Source := "[1 \"two\" [3]]"

/-- Modelled from the spec: the parse of `[1 "two" [3]]` (grammar §4.D); the
string literal's quotes sit at bytes 3 and 7. -/
def exampleVecExpr : Expr :=
  .Vector ⟨0, 13⟩
    [.Integer ⟨1, 2⟩ 1, stringExprOfQuotes 3 7,
     .Vector ⟨9, 12⟩ [.Integer ⟨10, 11⟩ 3]]

/-- The value scenario 7 evaluates to. -/
def exampleVecValue : Value :=
  .Vector [.Integer 1, .String ("two"), .Vector [.Integer 3]]

/-- The output line scenario 7 prints. -/
def exampleVecOutput : String := "[1 two [3]]"

/-- Interned handle of the symbol `=` in scenario 3. -/
def eqName : Name := 0

/-- Interned handle of the keyword name `yes` (colon stripped, §4.C). -/
def yesName : Name := 1

/-- Interned handle of the keyword name `no` (colon stripped, §4.C). -/
def noName : Name := 2

/-- Modelled from the spec: the interner state after lexing scenario 3;
`resolve` returns the interned text (keyword handles hold the name without
the leading colon, §4.C). -/
def scenario3Interner : Interner := fun n =>
  if n = 1 then ("yes") else if n = 2 then ("no") else ("=")

/-- An integer-equality built-in returning Bool, installed as code 0. -/
def eqBuiltins : Builtins := fun code args =>
  if code = 0 then
    match args with
    | [.Integer a, .Integer b] => some (.Bool (a == b))
    | _ => none
  else none

/-- Scenario 3 input line. -/
def scenario3Source : Source := "(if (= 0 0) :yes :no)"

/-- Modelled from the spec: the parse of scenario 3's line. -/
def scenario3Expr : Expr :=
  .List ⟨0, 21⟩
    [.Operator ⟨1, 3⟩ .If,
     .List ⟨4, 11⟩ [.Symbol ⟨5, 6⟩ eqName, .Integer ⟨7, 8⟩ 0, .Integer ⟨9, 10⟩ 0],
     .Keyword ⟨12, 16⟩ yesName,
     .Keyword ⟨17, 20⟩ noName]

/-- Scenario 3's global environment: `=` bound to the equality built-in. -/
def scenario3Env : Stack := [[(eqName, Value.Function 0)]]

/-- The input line `def`. -/
def bareDefSource : Source := "def"

/-- Modelled from the spec: grammar §4.D (`atom := … | Op`) parses the line
`def` to a bare Operator atom. -/
def bareDefExpr : Expr := .Operator ⟨0, 3⟩ .Def

/-- The input line `[def]`. -/
def bareDefVecSource : Source := "[def]"

/-- Modelled from the spec: the parse of `[def]`, a vector holding a bare
Operator atom. -/
def bareDefVecExpr : Expr := .Vector ⟨0, 5⟩ [.Operator ⟨1, 4⟩ .Def]

/-- A concrete I/O error Display text. -/
def pipeError : String := "broken pipe"

/-- Handle of the symbol `x`. -/
def xName : Name := 10

/-- Handle of the symbol `y`. -/
def yName : Name := 11

/-- Handle of the symbol `z`. -/
def zName : Name := 12

/-- The input line `(def x [(def y 1) z])`. -/
def defCexSource : Source := "(def x [(def y 1) z])"

/-- Modelled from the spec: the parse of `(def x [(def y 1) z])`. -/
def defCexExpr : Expr :=
  .List ⟨0, 21⟩
    [.Operator ⟨1, 4⟩ .Def, .Symbol ⟨5, 6⟩ xName,
     .Vector ⟨7, 20⟩
       [.List ⟨8, 17⟩
          [.Operator ⟨9, 12⟩ .Def, .Symbol ⟨13, 14⟩ yName, .Integer ⟨15, 16⟩ 1],
        .Symbol ⟨18, 19⟩ zName]]

/-- Handle of the symbol `+` in scenario 4. -/
def plusName : Name := 0

/-- Handle of the symbol `a` in scenario 4. -/
def aName : Name := 1

/-- Handle of the symbol `b` in scenario 4. -/
def bName : Name := 2

/-- A binary integer addition built-in, installed as code 0. -/
def plusB : Builtins := fun code args =>
  if code = 0 then
    match args with
    | [.Integer a, .Integer b] => some (.Integer (a + b))
    | _ => none
  else none

/-- Scenario 4 input line. -/
def scenario4Source : Source := "(let [a 1 b (+ a 2)] (+ a b))"

/-- The binding vector elements of scenario 4. -/
def scenario4Bindings : List Expr :=
  [.Symbol ⟨6, 7⟩ aName, .Integer ⟨8, 9⟩ 1,
   .Symbol ⟨10, 11⟩ bName,
   .List ⟨12, 19⟩ [.Symbol ⟨13, 14⟩ plusName, .Symbol ⟨15, 16⟩ aName, .Integer ⟨17, 18⟩ 2]]

/-- The body of scenario 4. -/
def scenario4Body : Expr :=
  .List ⟨21, 28⟩ [.Symbol ⟨22, 23⟩ plusName, .Symbol ⟨24, 25⟩ aName, .Symbol ⟨26, 27⟩ bName]

/-- Modelled from the spec: the parse of scenario 4's line. -/
def scenario4Expr : Expr :=
  .List ⟨0, 29⟩ [.Operator ⟨1, 4⟩ .Let, .Vector ⟨5, 20⟩ scenario4Bindings, scenario4Body]

/-- Scenario 4's global environment: `+` bound to the addition built-in. -/
def scenario4Env : Stack := [[(plusName, Value.Function 0)]]

/-- The adjacent binding pairs of scenario 4. -/
def scenario4Pairs : List (Expr × Expr) :=
  [(.Symbol ⟨6, 7⟩ aName, .Integer ⟨8, 9⟩ 1),
   (.Symbol ⟨10, 11⟩ bName,
    .List ⟨12, 19⟩ [.Symbol ⟨13, 14⟩ plusName, .Symbol ⟨15, 16⟩ aName, .Integer ⟨17, 18⟩ 2])]

/-- Handle of the symbol `f`. -/
def fName : Name := 20

/-- Handle of the symbol `g`. -/
def gName : Name := 21

/-- Environment binding `f` to callable 0 and `g` to callable 1. -/
def rebindEnv : Stack := [[(fName, Value.Function 0), (gName, Value.Function 1)]]

/-- Builtins whose callable 0 always returns 100 and callable 1 always 200. -/
def rebindB : Builtins := fun code _ =>
  if code = 0 then some (.Integer 100)
  else if code = 1 then some (.Integer 200)
  else none

/-- The input line `(f (def f g))`. -/
def rebindSource : Source := "(f (def f g))"

/-- Modelled from the spec: the parse of `(f (def f g))`: a call whose single
argument rebinds the head symbol. -/
def rebindExpr : Expr :=
  .List ⟨0, 13⟩
    [.Symbol ⟨1, 2⟩ fName,
     .List ⟨3, 12⟩ [.Operator ⟨4, 7⟩ .Def, .Symbol ⟨8, 9⟩ fName, .Symbol ⟨10, 11⟩ gName]]

/-- Relation between the stack a call receives and the stack it returns: the
frames below the top are untouched and the height is unchanged.  `insert`
only rewrites the topmost frame and `let` pops exactly the frame it pushed,
so every evaluator call preserves this relation (proved below). -/
def preservesFrames (s t : Stack) : Prop :=
  t.tail = s.tail ∧ t.length = s.length

theorem preservesFrames_refl (s : Stack) : preservesFrames s s := ⟨rfl, rfl⟩

theorem preservesFrames_trans {s t u : Stack} (h1 : preservesFrames s t)
    (h2 : preservesFrames t u) : preservesFrames s u :=
  ⟨h2.1.trans h1.1, h2.2.trans h1.2⟩

theorem preservesFrames_insert (s : Stack) (n : Name) (v : Value) :
    preservesFrames s (Stack.insert s n v) := by
  cases s <;> exact ⟨rfl, rfl⟩

theorem preservesFrames_pop {env s2 : Stack}
    (hp : preservesFrames (Env.new :: env) s2) :
    preservesFrames env s2.tail :=
  ⟨by rw [hp.1]; rfl, by rw [hp.1]; rfl⟩

theorem preservesFrames_pop_eq {env s2 : Stack}
    (hp : preservesFrames (Env.new :: env) s2) : s2.tail = env :=
  hp.1

theorem preservesFrames_out {α : Type} {x : α} {s2 env : Stack}
    {out : α × Stack} (hp : preservesFrames env s2)
    (h : some (x, s2) = some out) : preservesFrames env out.2 := by
  injection h with h
  subst h
  exact hp

mutual

/-- `eval::expr` touches at most the topmost frame of the stack it is given:
the returned stack has the same height and the same frames below the top. -/
theorem expr_frames (e : Expr) (source : Source) (B : Builtins) (env : Stack)
    (out : Except Error Value × Stack) (h : expr e source B env = some out) :
    preservesFrames env out.2 := by
  cases e with
  | Bool sp b =>
    simp only [expr] at h
    exact preservesFrames_out (preservesFrames_refl env) h
  | Integer sp i =>
    simp only [expr] at h
    exact preservesFrames_out (preservesFrames_refl env) h
  | Keyword sp n =>
    simp only [expr] at h
    exact preservesFrames_out (preservesFrames_refl env) h
  | Nil sp =>
    simp only [expr] at h
    exact preservesFrames_out (preservesFrames_refl env) h
  | String sp =>
    simp only [expr] at h
    exact preservesFrames_out (preservesFrames_refl env) h
  | Operator sp op =>
    simp only [expr] at h
    exact Option.noConfusion h
  | Symbol sp sym =>
    simp only [expr] at h
    rcases hG : Stack.get env sym with _ | v <;> rw [hG] at h <;>
      exact preservesFrames_out (preservesFrames_refl env) h
  | Vector sp es =>
    simp only [expr] at h
    rcases hE : exprs es source B env with _ | ⟨er | vs, env1⟩ <;> rw [hE] at h
    · exact Option.noConfusion h
    · exact preservesFrames_out (exprs_frames es source B env _ hE) h
    · exact preservesFrames_out (exprs_frames es source B env _ hE) h
  | List sp es =>
    cases es with
    | nil =>
      simp only [expr] at h
      exact preservesFrames_out (preservesFrames_refl env) h
    | cons head tail =>
      cases head with
      | Bool hsp b =>
        simp only [expr] at h
        exact preservesFrames_out (preservesFrames_refl env) h
      | Integer hsp i =>
        simp only [expr] at h
        exact preservesFrames_out (preservesFrames_refl env) h
      | Keyword hsp n =>
        simp only [expr] at h
        exact preservesFrames_out (preservesFrames_refl env) h
      | Nil hsp =>
        simp only [expr] at h
        exact preservesFrames_out (preservesFrames_refl env) h
      | String hsp =>
        simp only [expr] at h
        exact preservesFrames_out (preservesFrames_refl env) h
      | List hsp hes =>
        simp only [expr] at h
        exact preservesFrames_out (preservesFrames_refl env) h
      | Vector hsp hes =>
        simp only [expr] at h
        exact preservesFrames_out (preservesFrames_refl env) h
      | Symbol hsp sym =>
        simp only [expr] at h
        rcases hG : Stack.get env sym with _ | value <;> rw [hG] at h
        · exact preservesFrames_out (preservesFrames_refl env) h
        · cases value with
          | Function code =>
            rcases hA : exprs tail source B env with _ | ⟨er | args, env1⟩ <;>
              rw [hA] at h
            · exact Option.noConfusion h
            · exact preservesFrames_out (exprs_frames tail source B env _ hA) h
            · dsimp only at h
              rcases hB : B code args with _ | v <;> rw [hB] at h <;>
                exact preservesFrames_out (exprs_frames tail source B env _ hA) h
          | Bool b => exact preservesFrames_out (preservesFrames_refl env) h
          | Integer i => exact preservesFrames_out (preservesFrames_refl env) h
          | Keyword n => exact preservesFrames_out (preservesFrames_refl env) h
          | Nil => exact preservesFrames_out (preservesFrames_refl env) h
          | String s => exact preservesFrames_out (preservesFrames_refl env) h
          | Vector vs => exact preservesFrames_out (preservesFrames_refl env) h
      | Operator osp op =>
        cases op with
        | Def =>
          rcases tail with _ | ⟨symbol, _ | ⟨e', _ | ⟨x, rest⟩⟩⟩
          · simp only [expr] at h
            exact preservesFrames_out (preservesFrames_refl env) h
          · simp only [expr] at h
            exact preservesFrames_out (preservesFrames_refl env) h
          · cases symbol with
            | Symbol ssp name =>
              simp only [expr] at h
              rcases hE : expr e' source B env with _ | ⟨er | v, env1⟩ <;>
                rw [hE] at h
              · exact Option.noConfusion h
              · exact preservesFrames_out (expr_frames e' source B env _ hE) h
              · exact preservesFrames_out
                  (preservesFrames_trans (expr_frames e' source B env _ hE)
                    (preservesFrames_insert env1 name v)) h
            | Bool ssp b =>
              simp only [expr] at h
              exact preservesFrames_out (preservesFrames_refl env) h
            | Integer ssp i =>
              simp only [expr] at h
              exact preservesFrames_out (preservesFrames_refl env) h
            | Keyword ssp n =>
              simp only [expr] at h
              exact preservesFrames_out (preservesFrames_refl env) h
            | Nil ssp =>
              simp only [expr] at h
              exact preservesFrames_out (preservesFrames_refl env) h
            | String ssp =>
              simp only [expr] at h
              exact preservesFrames_out (preservesFrames_refl env) h
            | Operator ssp oop =>
              simp only [expr] at h
              exact preservesFrames_out (preservesFrames_refl env) h
            | List ssp ses =>
              simp only [expr] at h
              exact preservesFrames_out (preservesFrames_refl env) h
            | Vector ssp ses =>
              simp only [expr] at h
              exact preservesFrames_out (preservesFrames_refl env) h
          · simp only [expr] at h
            exact preservesFrames_out (preservesFrames_refl env) h
        | If =>
          rcases tail with _ | ⟨cond, _ | ⟨thn, _ | ⟨els, _ | ⟨x, rest⟩⟩⟩⟩
          · simp only [expr] at h
            exact preservesFrames_out (preservesFrames_refl env) h
          · simp only [expr] at h
            exact preservesFrames_out (preservesFrames_refl env) h
          · simp only [expr] at h
            exact preservesFrames_out (preservesFrames_refl env) h
          · simp only [expr] at h
            rcases hC : expr cond source B env with _ | ⟨er | v, env1⟩ <;>
              rw [hC] at h
            · exact Option.noConfusion h
            · exact preservesFrames_out (expr_frames cond source B env _ hC) h
            · have hc := expr_frames cond source B env _ hC
              cases v with
              | Bool b =>
                cases b with
                | false =>
                  exact preservesFrames_trans hc
                    (expr_frames els source B env1 out h)
                | true =>
                  exact preservesFrames_trans hc
                    (expr_frames thn source B env1 out h)
              | Nil =>
                exact preservesFrames_trans hc
                  (expr_frames els source B env1 out h)
              | Function code =>
                exact preservesFrames_trans hc
                  (expr_frames thn source B env1 out h)
              | Integer i =>
                exact preservesFrames_trans hc
                  (expr_frames thn source B env1 out h)
              | Keyword n =>
                exact preservesFrames_trans hc
                  (expr_frames thn source B env1 out h)
              | String s =>
                exact preservesFrames_trans hc
                  (expr_frames thn source B env1 out h)
              | Vector vs =>
                exact preservesFrames_trans hc
                  (expr_frames thn source B env1 out h)
          · simp only [expr] at h
            exact preservesFrames_out (preservesFrames_refl env) h
        | Let =>
          rcases tail with _ | ⟨lst, _ | ⟨ret, _ | ⟨x, rest⟩⟩⟩
          · simp only [expr] at h
            exact preservesFrames_out (preservesFrames_refl env) h
          · simp only [expr] at h
            exact preservesFrames_out (preservesFrames_refl env) h
          · cases lst with
            | List bsp bindings =>
              simp only [expr] at h
              by_cases hpar : bindings.length % 2 = 0
              · rw [if_pos hpar] at h
                rcases hL : letLoop bindings source B (Env.new :: env) with
                  _ | ⟨er | u, env1⟩ <;> rw [hL] at h
                · exact Option.noConfusion h
                · exact preservesFrames_out
                    (preservesFrames_pop
                      (letLoop_frames bindings source B (Env.new :: env) _ hL)) h
                · dsimp only at h
                  rcases hR : expr ret source B env1 with _ | ⟨r, env2⟩ <;>
                    rw [hR] at h
                  · exact Option.noConfusion h
                  · exact preservesFrames_out
                      (preservesFrames_pop (preservesFrames_trans
                        (letLoop_frames bindings source B (Env.new :: env) _ hL)
                        (expr_frames ret source B env1 _ hR))) h
              · rw [if_neg hpar] at h
                exact preservesFrames_out (preservesFrames_refl env) h
            | Vector bsp bindings =>
              simp only [expr] at h
              by_cases hpar : bindings.length % 2 = 0
              · rw [if_pos hpar] at h
                rcases hL : letLoop bindings source B (Env.new :: env) with
                  _ | ⟨er | u, env1⟩ <;> rw [hL] at h
                · exact Option.noConfusion h
                · exact preservesFrames_out
                    (preservesFrames_pop
                      (letLoop_frames bindings source B (Env.new :: env) _ hL)) h
                · dsimp only at h
                  rcases hR : expr ret source B env1 with _ | ⟨r, env2⟩ <;>
                    rw [hR] at h
                  · exact Option.noConfusion h
                  · exact preservesFrames_out
                      (preservesFrames_pop (preservesFrames_trans
                        (letLoop_frames bindings source B (Env.new :: env) _ hL)
                        (expr_frames ret source B env1 _ hR))) h
              · rw [if_neg hpar] at h
                exact preservesFrames_out (preservesFrames_refl env) h
            | Bool bsp b =>
              simp only [expr] at h
              exact preservesFrames_out (preservesFrames_refl env) h
            | Integer bsp i =>
              simp only [expr] at h
              exact preservesFrames_out (preservesFrames_refl env) h
            | Keyword bsp n =>
              simp only [expr] at h
              exact preservesFrames_out (preservesFrames_refl env) h
            | Nil bsp =>
              simp only [expr] at h
              exact preservesFrames_out (preservesFrames_refl env) h
            | String bsp =>
              simp only [expr] at h
              exact preservesFrames_out (preservesFrames_refl env) h
            | Symbol bsp n =>
              simp only [expr] at h
              exact preservesFrames_out (preservesFrames_refl env) h
            | Operator bsp oop =>
              simp only [expr] at h
              exact preservesFrames_out (preservesFrames_refl env) h
          · simp only [expr] at h
            exact preservesFrames_out (preservesFrames_refl env) h

/-- The argument/element loop touches at most the topmost frame. -/
theorem exprs_frames (es : List Expr) (source : Source) (B : Builtins)
    (env : Stack) (out : Except Error (List Value) × Stack)
    (h : exprs es source B env = some out) : preservesFrames env out.2 := by
  cases es with
  | nil =>
    simp only [exprs] at h
    exact preservesFrames_out (preservesFrames_refl env) h
  | cons e rest =>
    simp only [exprs] at h
    rcases hE : expr e source B env with _ | ⟨er | v, env1⟩ <;> rw [hE] at h
    · exact Option.noConfusion h
    · exact preservesFrames_out (expr_frames e source B env _ hE) h
    · dsimp only at h
      rcases hR : exprs rest source B env1 with _ | ⟨er2 | vs, env2⟩ <;>
        rw [hR] at h
      · exact Option.noConfusion h
      · exact preservesFrames_out
          (preservesFrames_trans (expr_frames e source B env _ hE)
            (exprs_frames rest source B env1 _ hR)) h
      · exact preservesFrames_out
          (preservesFrames_trans (expr_frames e source B env _ hE)
            (exprs_frames rest source B env1 _ hR)) h

/-- The `let` binding loop touches at most the topmost frame. -/
theorem letLoop_frames (bs : List Expr) (source : Source) (B : Builtins)
    (env : Stack) (out : Except Error Unit × Stack)
    (h : letLoop bs source B env = some out) : preservesFrames env out.2 := by
  match bs with
  | [] =>
    simp only [letLoop] at h
    exact preservesFrames_out (preservesFrames_refl env) h
  | [x] =>
    simp only [letLoop] at h
    exact Option.noConfusion h
  | symbol :: e :: rest =>
    cases symbol with
    | Symbol ssp name =>
      simp only [letLoop] at h
      rcases hE : expr e source B env with _ | ⟨er | v, env1⟩ <;> rw [hE] at h
      · exact Option.noConfusion h
      · exact preservesFrames_out (expr_frames e source B env _ hE) h
      · exact preservesFrames_trans
          (preservesFrames_trans (expr_frames e source B env _ hE)
            (preservesFrames_insert env1 name v))
          (letLoop_frames rest source B (Stack.insert env1 name v) out h)
    | Bool ssp b =>
      simp only [letLoop] at h
      exact preservesFrames_out (preservesFrames_refl env) h
    | Integer ssp i =>
      simp only [letLoop] at h
      exact preservesFrames_out (preservesFrames_refl env) h
    | Keyword ssp n =>
      simp only [letLoop] at h
      exact preservesFrames_out (preservesFrames_refl env) h
    | Nil ssp =>
      simp only [letLoop] at h
      exact preservesFrames_out (preservesFrames_refl env) h
    | String ssp =>
      simp only [letLoop] at h
      exact preservesFrames_out (preservesFrames_refl env) h
    | Operator ssp oop =>
      simp only [letLoop] at h
      exact preservesFrames_out (preservesFrames_refl env) h
    | List ssp ses =>
      simp only [letLoop] at h
      exact preservesFrames_out (preservesFrames_refl env) h
    | Vector ssp ses =>
      simp only [letLoop] at h
      exact preservesFrames_out (preservesFrames_refl env) h

end

/-- A binding list pairs to `some` exactly when its length is even. -/
theorem pairsOf_length (bs : List Expr) (pairs : List (Expr × Expr))
    (hp : pairsOf bs = some pairs) : bs.length % 2 = 0 := by
  match bs with
  | [] => rfl
  | [x] =>
    simp only [pairsOf] at hp
    exact Option.noConfusion hp
  | a :: b :: rest =>
    simp only [pairsOf] at hp
    rcases hrest : pairsOf rest with _ | ps <;> rw [hrest] at hp
    · simp at hp
    · have := pairsOf_length rest ps hrest
      simp only [List.length_cons]
      omega

/-- `letSpecGo` agrees with the evaluator's binding loop followed by the
body evaluation, with every exit path returning the saved outer stack. -/
theorem letSpecGo_letLoop (bs : List Expr) (pairs : List (Expr × Expr))
    (body : Expr) (source : Source) (B : Builtins) (ext saved : Stack)
    (hp : pairsOf bs = some pairs) :
    letSpecGo pairs body source B ext saved =
      match letLoop bs source B ext with
      | none => none
      | some (.error er, _) => some (.error er, saved)
      | some (.ok _, ext2) =>
        match expr body source B ext2 with
        | none => none
        | some (r, _) => some (r, saved) := by
  match bs with
  | [] =>
    simp only [pairsOf] at hp
    injection hp with hp
    subst hp
    simp only [letSpecGo, letLoop]
  | [x] =>
    simp only [pairsOf] at hp
    exact Option.noConfusion hp
  | symE :: e :: rest =>
    simp only [pairsOf] at hp
    rcases hrest : pairsOf rest with _ | ps <;> rw [hrest] at hp
    · simp at hp
    · simp only [Option.map] at hp
      injection hp with hp
      subst hp
      cases symE with
      | Symbol ssp n =>
        simp only [letSpecGo, letLoop]
        rcases hE : expr e source B ext with _ | ⟨er | v, ext1⟩
        · rfl
        · rfl
        · exact letSpecGo_letLoop rest ps body source B (Stack.insert ext1 n v)
            saved hrest
      | Bool ssp b => simp only [letSpecGo, letLoop]
      | Integer ssp i => simp only [letSpecGo, letLoop]
      | Keyword ssp n => simp only [letSpecGo, letLoop]
      | Nil ssp => simp only [letSpecGo, letLoop]
      | String ssp => simp only [letSpecGo, letLoop]
      | Operator ssp oop => simp only [letSpecGo, letLoop]
      | List ssp ses => simp only [letSpecGo, letLoop]
      | Vector ssp ses => simp only [letSpecGo, letLoop]

/-- Every exit path of `letSpecGo` returns the saved stack. -/
theorem letSpecGo_saved (pairs : List (Expr × Expr)) (body : Expr)
    (source : Source) (B : Builtins) (ext saved : Stack)
    (out : Except Error Value × Stack)
    (h : letSpecGo pairs body source B ext saved = some out) :
    out.2 = saved := by
  match pairs with
  | [] =>
    simp only [letSpecGo] at h
    rcases hB : expr body source B ext with _ | ⟨r, env2⟩ <;> rw [hB] at h
    · exact Option.noConfusion h
    · injection h with h
      subst h
      rfl
  | (symE, e) :: rest =>
    cases symE with
    | Symbol ssp n =>
      simp only [letSpecGo] at h
      rcases hE : expr e source B ext with _ | ⟨er | v, ext1⟩ <;> rw [hE] at h
      · exact Option.noConfusion h
      · dsimp only at h
        injection h with h
        subst h
        rfl
      · exact letSpecGo_saved rest body source B (Stack.insert ext1 n v) saved
          out h
    | Bool ssp b =>
      simp only [letSpecGo] at h
      injection h with h
      subst h
      rfl
    | Integer ssp i =>
      simp only [letSpecGo] at h
      injection h with h
      subst h
      rfl
    | Keyword ssp n =>
      simp only [letSpecGo] at h
      injection h with h
      subst h
      rfl
    | Nil ssp =>
      simp only [letSpecGo] at h
      injection h with h
      subst h
      rfl
    | String ssp =>
      simp only [letSpecGo] at h
      injection h with h
      subst h
      rfl
    | Operator ssp oop =>
      simp only [letSpecGo] at h
      injection h with h
      subst h
      rfl
    | List ssp ses =>
      simp only [letSpecGo] at h
      injection h with h
      subst h
      rfl
    | Vector ssp ses =>
      simp only [letSpecGo] at h
      injection h with h
      subst h
      rfl

/-- The element loop on `pre ++ e :: post` propagates the first error: if the
prefix succeeds and `e` errors, the whole loop returns `e`'s error in `e`'s
final stack, whatever `post` is. -/
theorem exprs_append_error (pre : List Expr) (e : Expr) (post : List Expr)
    (source : Source) (B : Builtins) (env env1 env2 : Stack)
    (vs : List Value) (er : Error)
    (hpre : exprs pre source B env = some (.ok vs, env1))
    (he : expr e source B env1 = some (.error er, env2)) :
    exprs (pre ++ e :: post) source B env = some (.error er, env2) := by
  match pre with
  | [] =>
    simp only [exprs] at hpre
    rw [Option.some_inj, Prod.mk.injEq] at hpre
    obtain ⟨-, henv⟩ := hpre
    subst henv
    simp only [List.nil_append, exprs]
    rw [he]
  | p :: rest =>
    simp only [exprs] at hpre
    rcases hp : expr p source B env with _ | ⟨er0 | v0, env0⟩ <;> rw [hp] at hpre
    · exact Option.noConfusion hpre
    · dsimp only at hpre
      rw [Option.some_inj, Prod.mk.injEq] at hpre
      exact absurd hpre.1 (by simp)
    · dsimp only at hpre
      rcases hr : exprs rest source B env0 with _ | ⟨er1 | vs1, env3⟩ <;>
        rw [hr] at hpre
      · exact Option.noConfusion hpre
      · rw [Option.some_inj, Prod.mk.injEq] at hpre
        exact absurd hpre.1 (by simp)
      · rw [Option.some_inj, Prod.mk.injEq] at hpre
        obtain ⟨-, henv⟩ := hpre
        subst henv
        simp only [List.cons_append, exprs]
        rw [hp]
        dsimp only
        simp only [List.append_eq]
        rw [exprs_append_error rest e post source B env0 env3 env2 vs1 er hr he]

/-- C1: evaluating a String expression returns `Value::String` holding
exactly the Source bytes strictly between the opening quote (at byte `qlo`)
and the closing quote (at byte `qhi`), quotes excluded, copied verbatim with
no escape processing; consequently evaluating and printing `[1 "two" [3]]`
yields `[1 two [3]]`. -/
theorem string_eval_verbatim_between_quotes :
    (∀ (qlo qhi : Nat) (source : Source) (B : Builtins) (env : Stack),
        expr (stringExprOfQuotes qlo qhi) source B env
          = some (.ok (.String (sliceSpan source ⟨qlo + 1, qhi⟩)), env))
  ∧ (∀ (B : Builtins) (interner : Interner) (env : Stack),
        expr exampleVecExpr exampleVecSource B env
          = some (.ok exampleVecValue, env)
        ∧ Value.display exampleVecValue interner = exampleVecOutput) := by
  refine ⟨fun qlo qhi source B env => rfl, fun B interner env => ⟨rfl, rfl⟩⟩

/-- C2 counterexample: the REPL rendering of a Keyword value
(`Value::display_`, line 105) pushes only the name resolved from the
Interner; at the concrete keyword `:yes` (whose interned handle resolves to
`yes`, the colon having been stripped by the lexer) it renders `yes`, not
`:` followed by the name. -/
theorem keyword_display_colon_cex :
    Value.display (.Keyword yesName) scenario3Interner = ("yes")
  ∧ Value.display (.Keyword yesName) scenario3Interner
      ≠ (":") ++ scenario3Interner yesName := by
  refine ⟨rfl, ?_⟩
  decide

/-- C2 amended: a Keyword value prints as exactly the name text recovered
from the Interner, with no ':' prefix; evaluating
`(if (= 0 0) :yes :no)` with a Bool-returning `=` built-in yields the
keyword `yes`, which prints as `yes`. -/
theorem keyword_display_resolved_name :
    (∀ (n : Name) (interner : Interner),
        Value.display (.Keyword n) interner = interner n)
  ∧ expr scenario3Expr scenario3Source eqBuiltins scenario3Env
      = some (.ok (.Keyword yesName), scenario3Env)
  ∧ Value.display (.Keyword yesName) scenario3Interner = ("yes") :=
  ⟨fun n interner => rfl, rfl, rfl⟩

/-- C3: a bare operator outside a list head is not caught before eval: the
grammar (§4.D, `atom := … | Op`) parses the line `def` to a bare Operator
atom and `[def]` to a vector holding one, and the evaluator reaches its
`Expr_::Operator` fatal-invariant arm (`unreachable!()`, modelled as the
panic outcome `none`) on both. -/
theorem bare_operator_reaches_eval_panic :
    ∀ (B : Builtins) (env : Stack),
      expr bareDefExpr bareDefSource B env = none
      ∧ expr bareDefVecExpr bareDefVecSource B env = none :=
  fun B env => ⟨rfl, rfl⟩

/-- C4 counterexample: on an output I/O error both `step1` and `step2` set
exit status 1 but write the single best-effort message to standard output —
not to the error stream. -/
theorem fatal_write_goes_to_stdout_cex :
    step1Main (.error pipeError) = (1, some ⟨.Stdout, pipeError⟩)
  ∧ step2Main (.error pipeError) = (1, some ⟨.Stdout, pipeError ++ ("\n")⟩)
  ∧ OutStream.Stdout ≠ OutStream.Stderr := by
  refine ⟨rfl, rfl, ?_⟩
  decide

/-- C4 amended: whenever writing to the output stream fails, the REPL
terminates with exit status 1 and writes a single best-effort message to
standard output (the failed stream itself), for both the step1 and step2
executables; a clean EOF exits 0 with no fatal write. -/
theorem fatal_exit_status_and_stream :
    ∀ e : String,
      step1Main (.error e) = (1, some ⟨.Stdout, e⟩)
      ∧ step2Main (.error e) = (1, some ⟨.Stdout, e ++ ("\n")⟩)
      ∧ step1Main (.ok ()) = (0, none)
      ∧ step2Main (.ok ()) = (0, none) :=
  fun e => ⟨rfl, rfl, rfl, rfl⟩

/-- C5 counterexample: evaluating `(def x [(def y 1) z])` with `z` unbound
propagates the error from the right-hand side, yet the global Env has been
changed by the failed form: the nested def inserted `y`. -/
theorem def_error_mutates_global_env_cex :
    expr defCexExpr defCexSource noBuiltins [[]]
      = some (.error ⟨⟨18, 19⟩, .UndefinedSymbol⟩, [[(yName, Value.Integer 1)]])
  ∧ ([[(yName, Value.Integer 1)]] : Stack) ≠ ([[]] : Stack) := by
  refine ⟨rfl, ?_⟩
  simp

/-- C5 amended: the failed form performs no insert of its own.  If the
right-hand side of `(def x E)` errors, the def yields that error without
inserting `x`, leaving the environment exactly as evaluating `E` left it
(sub-evaluations of `E` may themselves have inserted); if a `let` binding's
right-hand side errors, the let yields that error with the entire stack
unchanged (the popped frame absorbs any nested inserts). -/
theorem def_let_error_before_insert (sp osp xsp bsp : Span) (x : Name)
    (E body : Expr) (bs : List Expr) (source : Source) (B : Builtins)
    (env : Stack) :
    (∀ er envE, expr E source B env = some (.error er, envE) →
        expr (.List sp [.Operator osp .Def, .Symbol xsp x, E]) source B env
          = some (.error er, envE))
  ∧ (∀ er env1, bs.length % 2 = 0 →
        letLoop bs source B (Env.new :: env) = some (.error er, env1) →
        expr (.List sp [.Operator osp .Let, .List bsp bs, body]) source B env
          = some (.error er, env)) := by
  constructor
  · intro er envE hE
    simp only [expr]
    rw [hE]
  · intro er env1 heven hL
    simp only [expr]
    rw [if_pos heven, hL]
    dsimp only
    rw [preservesFrames_pop_eq (letLoop_frames bs source B (Env.new :: env) _ hL)]

/-- Witness for C5's amended statement at concrete inputs: `(def a b)` with
`b` unbound leaves the stack `[[]]` unchanged, and `(let (a b) nil)` with
`b` unbound likewise returns with the stack `[[]]` unchanged. -/
theorem def_let_error_before_insert_witness :
    expr (.List ⟨0, 9⟩ [.Operator ⟨1, 4⟩ .Def, .Symbol ⟨5, 6⟩ 0, .Symbol ⟨7, 8⟩ 1])
        bareDefSource noBuiltins [[]]
      = some (.error ⟨⟨7, 8⟩, .UndefinedSymbol⟩, [[]])
  ∧ expr (.List ⟨0, 14⟩ [.Operator ⟨1, 4⟩ .Let,
        .List ⟨5, 10⟩ [.Symbol ⟨6, 7⟩ 0, .Symbol ⟨8, 9⟩ 1], .Nil ⟨11, 14⟩])
        bareDefSource noBuiltins [[]]
      = some (.error ⟨⟨8, 9⟩, .UndefinedSymbol⟩, [[]]) := by
  constructor
  · exact (def_let_error_before_insert ⟨0, 9⟩ ⟨1, 4⟩ ⟨5, 6⟩ ⟨0, 0⟩ 0
      (.Symbol ⟨7, 8⟩ 1) (.Nil ⟨11, 14⟩) [] bareDefSource noBuiltins [[]]).1
      _ _ rfl
  · exact (def_let_error_before_insert ⟨0, 14⟩ ⟨1, 4⟩ ⟨0, 0⟩ ⟨5, 10⟩ 0
      (.Nil ⟨0, 0⟩) (.Nil ⟨11, 14⟩) [.Symbol ⟨6, 7⟩ 0, .Symbol ⟨8, 9⟩ 1]
      bareDefSource noBuiltins [[]]).2 _ _ rfl rfl

/-- C6: a well-shaped `let` (bindings a List or Vector of even length)
evaluates the binding pairs strictly top-to-bottom, each in the stack
extended with all earlier bindings of the same let, evaluates the body in
the same extended stack and returns its value (per the spec transcription
`letSpec`); and on every exit path the pushed frame is popped, so the
returned stack is exactly the outer one: the bindings are not visible
afterwards and shadowed outer bindings are restored. -/
theorem let_semantics (sp osp bsp : Span) (bs : List Expr)
    (pairs : List (Expr × Expr)) (body : Expr) (source : Source)
    (B : Builtins) (env : Stack) (hp : pairsOf bs = some pairs) :
    expr (.List sp [.Operator osp .Let, .List bsp bs, body]) source B env
        = letSpec pairs body source B env
  ∧ expr (.List sp [.Operator osp .Let, .Vector bsp bs, body]) source B env
        = letSpec pairs body source B env
  ∧ (∀ out,
      expr (.List sp [.Operator osp .Let, .Vector bsp bs, body]) source B env
        = some out → out.2 = env) := by
  have heven := pairsOf_length bs pairs hp
  have key :
      (match letLoop bs source B (Env.new :: env) with
        | none => none
        | some (.error er, env1) => some (.error er, env1.tail)
        | some (.ok _, env1) =>
          match expr body source B env1 with
          | none => none
          | some (r, env2) => some (r, env2.tail))
      = letSpec pairs body source B env := by
    rw [letSpec, letSpecGo_letLoop bs pairs body source B (Env.new :: env) env hp]
    rcases hL : letLoop bs source B (Env.new :: env) with _ | ⟨er | u, env1⟩
    · rfl
    · dsimp only
      rw [preservesFrames_pop_eq (letLoop_frames bs source B (Env.new :: env) _ hL)]
    · dsimp only
      rcases hR : expr body source B env1 with _ | ⟨r, env2⟩
      · rfl
      · dsimp only
        rw [preservesFrames_pop_eq (preservesFrames_trans
          (letLoop_frames bs source B (Env.new :: env) _ hL)
          (expr_frames body source B env1 _ hR))]
  have hlist :
      expr (.List sp [.Operator osp .Let, .List bsp bs, body]) source B env
        = letSpec pairs body source B env := by
    simp only [expr]
    rw [if_pos heven]
    exact key
  have hvec :
      expr (.List sp [.Operator osp .Let, .Vector bsp bs, body]) source B env
        = letSpec pairs body source B env := by
    simp only [expr]
    rw [if_pos heven]
    exact key
  refine ⟨hlist, hvec, ?_⟩
  intro out hout
  rw [hvec] at hout
  exact letSpecGo_saved pairs body source B (Env.new :: env) env out hout

/-- Witness for C6 at the spec's scenario 4,
`(let [a 1 b (+ a 2)] (+ a b))`: later bindings see earlier ones, the body
evaluates to 4, and the stack returns to the outer environment. -/
theorem let_semantics_witness :
    pairsOf scenario4Bindings = some scenario4Pairs
  ∧ expr scenario4Expr scenario4Source plusB scenario4Env
      = letSpec scenario4Pairs scenario4Body scenario4Source plusB scenario4Env
  ∧ letSpec scenario4Pairs scenario4Body scenario4Source plusB scenario4Env
      = some (.ok (.Integer 4), scenario4Env) := by
  refine ⟨rfl, ?_, rfl⟩
  exact (let_semantics ⟨0, 29⟩ ⟨1, 4⟩ ⟨5, 20⟩ scenario4Bindings scenario4Pairs
    scenario4Body scenario4Source plusB scenario4Env rfl).2.1

/-- C7: for a non-empty list whose head is a Symbol, an unbound head yields
`UndefinedSymbol` at the head's span; a head bound to a non-Function yields
`ExpectedFunction` at the head's span; a head bound to a Function has the
tail evaluated into arguments and the function invoked — a "no value"
return yields `UnsupportedOperation` at the whole list's span, otherwise
the returned Value is the result. -/
theorem call_dispatch (sp hsp : Span) (sym : Name) (tail : List Expr)
    (source : Source) (B : Builtins) (env : Stack) :
    (Stack.get env sym = none →
      expr (.List sp (.Symbol hsp sym :: tail)) source B env
        = some (.error ⟨hsp, .UndefinedSymbol⟩, env))
  ∧ (∀ v, Stack.get env sym = some v → (∀ code, v ≠ .Function code) →
      expr (.List sp (.Symbol hsp sym :: tail)) source B env
        = some (.error ⟨hsp, .ExpectedFunction⟩, env))
  ∧ (∀ code args env1, Stack.get env sym = some (.Function code) →
      exprs tail source B env = some (.ok args, env1) →
      expr (.List sp (.Symbol hsp sym :: tail)) source B env
        = match B code args with
          | some v => some (.ok v, env1)
          | none => some (.error ⟨sp, .UnsupportedOperation⟩, env1)) := by
  refine ⟨?_, ?_, ?_⟩
  · intro hG
    simp only [expr]
    rw [hG]
  · intro v hG hv
    simp only [expr]
    rw [hG]
    cases v with
    | Function code => exact absurd rfl (hv code)
    | Bool b => rfl
    | Integer i => rfl
    | Keyword n => rfl
    | Nil => rfl
    | String s => rfl
    | Vector vs => rfl
  · intro code args env1 hG hA
    simp only [expr]
    rw [hG]
    dsimp only
    rw [hA]

/-- Witness for C7 at concrete inputs: scenario 5's `(foo 1 2)` with `foo`
unbound, a call of a non-Function binding, scenario 1's `(+ 1 2)`, and a
built-in returning "no value". -/
theorem call_dispatch_witness :
    expr (.List ⟨0, 9⟩ [.Symbol ⟨1, 4⟩ 5, .Integer ⟨5, 6⟩ 1, .Integer ⟨7, 8⟩ 2])
        bareDefSource noBuiltins [[]]
      = some (.error ⟨⟨1, 4⟩, .UndefinedSymbol⟩, [[]])
  ∧ expr (.List ⟨0, 5⟩ [.Symbol ⟨1, 2⟩ 6, .Integer ⟨3, 4⟩ 1])
        bareDefSource noBuiltins [[(6, Value.Integer 2)]]
      = some (.error ⟨⟨1, 2⟩, .ExpectedFunction⟩, [[(6, Value.Integer 2)]])
  ∧ expr (.List ⟨0, 7⟩ [.Symbol ⟨1, 2⟩ plusName, .Integer ⟨3, 4⟩ 1, .Integer ⟨5, 6⟩ 2])
        bareDefSource plusB scenario4Env
      = some (.ok (.Integer 3), scenario4Env)
  ∧ expr (.List ⟨0, 3⟩ [.Symbol ⟨1, 2⟩ plusName, .Integer ⟨3, 4⟩ 1])
        bareDefSource plusB scenario4Env
      = some (.error ⟨⟨0, 3⟩, .UnsupportedOperation⟩, scenario4Env) := by
  refine ⟨?_, ?_, ?_, ?_⟩
  · exact (call_dispatch ⟨0, 9⟩ ⟨1, 4⟩ 5
      [.Integer ⟨5, 6⟩ 1, .Integer ⟨7, 8⟩ 2] bareDefSource noBuiltins [[]]).1 rfl
  · exact (call_dispatch ⟨0, 5⟩ ⟨1, 2⟩ 6 [.Integer ⟨3, 4⟩ 1] bareDefSource
      noBuiltins [[(6, Value.Integer 2)]]).2.1 (.Integer 2) rfl
      (fun code h => Value.noConfusion h)
  · exact (call_dispatch ⟨0, 7⟩ ⟨1, 2⟩ plusName
      [.Integer ⟨3, 4⟩ 1, .Integer ⟨5, 6⟩ 2] bareDefSource plusB
      scenario4Env).2.2 0 [.Integer 1, .Integer 2] scenario4Env rfl rfl
  · exact (call_dispatch ⟨0, 3⟩ ⟨1, 2⟩ plusName [.Integer ⟨3, 4⟩ 1]
      bareDefSource plusB scenario4Env).2.2 0 [.Integer 1] scenario4Env rfl rfl

/-- C8: for `(if cond then else)` of exactly three tail elements, `cond` is
evaluated first; the condition is falsey iff its value is `Bool(false)` or
`Nil` (so integer 0, the empty string and the empty vector are truthy);
exactly one branch is then evaluated — `then` when truthy, `else` when
falsey — and its result returned with the other branch left unevaluated
(the result does not depend on it). -/
theorem if_semantics (sp osp : Span) (cond thn els : Expr) (source : Source)
    (B : Builtins) (env : Stack) :
    (∀ er env1, expr cond source B env = some (.error er, env1) →
        expr (.List sp [.Operator osp .If, cond, thn, els]) source B env
          = some (.error er, env1))
  ∧ (∀ v env1, expr cond source B env = some (.ok v, env1) →
        ((v = .Bool false ∨ v = .Nil) →
          ∀ thn2, expr (.List sp [.Operator osp .If, cond, thn2, els]) source B env
            = expr els source B env1)
        ∧ (v ≠ .Bool false → v ≠ .Nil →
          ∀ els2, expr (.List sp [.Operator osp .If, cond, thn, els2]) source B env
            = expr thn source B env1)) := by
  refine ⟨?_, ?_⟩
  · intro er env1 hC
    simp only [expr]
    rw [hC]
  · intro v env1 hC
    refine ⟨?_, ?_⟩
    · rintro (rfl | rfl) thn2 <;> (simp only [expr]; rw [hC])
    · intro hb hn els2
      simp only [expr]
      rw [hC]
      cases v with
      | Bool b =>
        cases b with
        | false => exact absurd rfl hb
        | true => rfl
      | Nil => exact absurd rfl hn
      | Function code => rfl
      | Integer i => rfl
      | Keyword n => rfl
      | String s => rfl
      | Vector vs => rfl

/-- Witness for C8 at concrete inputs: integer 0 is truthy, so
`(if 0 1 z)` returns 1 without evaluating the unbound `z`; `nil` is falsey,
so `(if nil z 2)` returns 2 without evaluating `z`. -/
theorem if_semantics_witness :
    expr (.List ⟨0, 10⟩ [.Operator ⟨1, 3⟩ .If, .Integer ⟨4, 5⟩ 0,
        .Integer ⟨6, 7⟩ 1, .Symbol ⟨8, 9⟩ 9]) bareDefSource noBuiltins [[]]
      = expr (.Integer ⟨6, 7⟩ 1) bareDefSource noBuiltins [[]]
  ∧ expr (.List ⟨0, 12⟩ [.Operator ⟨1, 3⟩ .If, .Nil ⟨4, 7⟩,
        .Symbol ⟨8, 9⟩ 9, .Integer ⟨10, 11⟩ 2]) bareDefSource noBuiltins [[]]
      = expr (.Integer ⟨10, 11⟩ 2) bareDefSource noBuiltins [[]] := by
  constructor
  · exact ((if_semantics ⟨0, 10⟩ ⟨1, 3⟩ (.Integer ⟨4, 5⟩ 0) (.Integer ⟨6, 7⟩ 1)
      (.Symbol ⟨8, 9⟩ 9) bareDefSource noBuiltins [[]]).2 (.Integer 0) [[]]
      rfl).2 (fun h => Value.noConfusion h) (fun h => Value.noConfusion h)
      (.Symbol ⟨8, 9⟩ 9)
  · exact ((if_semantics ⟨0, 12⟩ ⟨1, 3⟩ (.Nil ⟨4, 7⟩) (.Symbol ⟨8, 9⟩ 9)
      (.Integer ⟨10, 11⟩ 2) bareDefSource noBuiltins [[]]).2 .Nil [[]]
      rfl).1 (Or.inr rfl) (.Symbol ⟨8, 9⟩ 9)

/-- C9: vector elements and function-call arguments are evaluated strictly
left-to-right; the first erroring element's error (with its span) is the
overall result, the elements after it are not evaluated (the result is the
same for every `post`), and when no element errors a Vector of the results
(respectively the call on the argument values) is produced. -/
theorem left_to_right_first_error (sp hsp : Span) (sym : Name)
    (source : Source) (B : Builtins) (env : Stack) :
    (∀ es vs env1, exprs es source B env = some (.ok vs, env1) →
        expr (.Vector sp es) source B env = some (.ok (.Vector vs), env1))
  ∧ (∀ pre e post vs env1 er env2,
        exprs pre source B env = some (.ok vs, env1) →
        expr e source B env1 = some (.error er, env2) →
        expr (.Vector sp (pre ++ e :: post)) source B env
          = some (.error er, env2))
  ∧ (∀ code pre e post vs env1 er env2,
        Stack.get env sym = some (.Function code) →
        exprs pre source B env = some (.ok vs, env1) →
        expr e source B env1 = some (.error er, env2) →
        expr (.List sp (.Symbol hsp sym :: (pre ++ e :: post))) source B env
          = some (.error er, env2)) := by
  refine ⟨?_, ?_, ?_⟩
  · intro es vs env1 hA
    simp only [expr]
    rw [hA]
  · intro pre e post vs env1 er env2 hpre he
    simp only [expr]
    rw [exprs_append_error pre e post source B env env1 env2 vs er hpre he]
  · intro code pre e post vs env1 er env2 hG hpre he
    simp only [expr]
    rw [hG]
    dsimp only
    rw [exprs_append_error pre e post source B env env1 env2 vs er hpre he]

/-- Witness for C9 at concrete inputs: `[1 z 2]` with `z` unbound reports
`z`'s error and leaves the trailing element unevaluated, `(+ 1 z 2)`
likewise, and `[1 2]` evaluates to a vector of the results. -/
theorem left_to_right_first_error_witness :
    expr (.Vector ⟨0, 7⟩ [.Integer ⟨1, 2⟩ 1, .Symbol ⟨3, 4⟩ 9, .Integer ⟨5, 6⟩ 2])
        bareDefSource noBuiltins [[]]
      = some (.error ⟨⟨3, 4⟩, .UndefinedSymbol⟩, [[]])
  ∧ expr (.List ⟨0, 9⟩ [.Symbol ⟨1, 2⟩ plusName, .Integer ⟨3, 4⟩ 1,
        .Symbol ⟨5, 6⟩ 9, .Integer ⟨7, 8⟩ 2]) bareDefSource plusB scenario4Env
      = some (.error ⟨⟨5, 6⟩, .UndefinedSymbol⟩, scenario4Env)
  ∧ expr (.Vector ⟨0, 5⟩ [.Integer ⟨1, 2⟩ 1, .Integer ⟨3, 4⟩ 2])
        bareDefSource noBuiltins [[]]
      = some (.ok (.Vector [.Integer 1, .Integer 2]), [[]]) := by
  refine ⟨?_, ?_, ?_⟩
  · exact (left_to_right_first_error ⟨0, 7⟩ ⟨0, 0⟩ 0 bareDefSource noBuiltins
      [[]]).2.1 [.Integer ⟨1, 2⟩ 1] (.Symbol ⟨3, 4⟩ 9) [.Integer ⟨5, 6⟩ 2]
      [.Integer 1] [[]] ⟨⟨3, 4⟩, .UndefinedSymbol⟩ [[]] rfl rfl
  · exact (left_to_right_first_error ⟨0, 9⟩ ⟨1, 2⟩ plusName bareDefSource
      plusB scenario4Env).2.2 0 [.Integer ⟨3, 4⟩ 1] (.Symbol ⟨5, 6⟩ 9)
      [.Integer ⟨7, 8⟩ 2] [.Integer 1] scenario4Env
      ⟨⟨5, 6⟩, .UndefinedSymbol⟩ scenario4Env rfl rfl rfl
  · exact (left_to_right_first_error ⟨0, 5⟩ ⟨0, 0⟩ 0 bareDefSource noBuiltins
      [[]]).1 [.Integer ⟨1, 2⟩ 1, .Integer ⟨3, 4⟩ 2] [.Integer 1, .Integer 2]
      [[]] rfl

/-- C10: in a call `(f a1 ... ak)` the Function value bound to the head is
looked up (and its `Rc` cloned) before any argument is evaluated: the
invoked callable is the one bound at head-resolution time, whatever the
argument evaluation does to the binding. -/
theorem call_resolves_function_before_args (sp hsp : Span) (sym : Name)
    (tail : List Expr) (source : Source) (B : Builtins) (env : Stack)
    (code : FnCode) (hG : Stack.get env sym = some (.Function code)) :
    expr (.List sp (.Symbol hsp sym :: tail)) source B env
      = match exprs tail source B env with
        | none => none
        | some (.error er, env1) => some (.error er, env1)
        | some (.ok args, env1) =>
          match B code args with
          | some v => some (.ok v, env1)
          | none => some (.error ⟨sp, .UnsupportedOperation⟩, env1) := by
  simp only [expr]
  rw [hG]

/-- Witness for C10 at the concrete call `(f (def f g))`: the argument
rebinds `f` to callable 1, yet the invoked function is callable 0 (bound
when the head was resolved), returning 100 — and afterwards `f` resolves to
callable 1. -/
theorem call_resolves_function_before_args_witness :
    Stack.get rebindEnv fName = some (.Function 0)
  ∧ expr rebindExpr rebindSource rebindB rebindEnv
      = some (.ok (.Integer 100),
          [[(fName, Value.Function 1), (fName, Value.Function 0),
            (gName, Value.Function 1)]])
  ∧ Stack.get [[(fName, Value.Function 1), (fName, Value.Function 0),
        (gName, Value.Function 1)]] fName = some (.Function 1)
  ∧ rebindB 1 [Value.Function 1] = some (.Integer 200) := by
  refine ⟨rfl, ?_, rfl, rfl⟩
  exact call_resolves_function_before_args ⟨0, 13⟩ ⟨1, 2⟩ fName
    [.List ⟨3, 12⟩ [.Operator ⟨4, 7⟩ .Def, .Symbol ⟨8, 9⟩ fName,
      .Symbol ⟨10, 11⟩ gName]] rebindSource rebindB rebindEnv 0 rfl

end LispRs
